import Mathlib

/-!
Verification of the fxlens-app natural-language-to-SQL service.

This file gives a shallow embedding of the string-processing core of the
repository (`src/main.py` and `src/app/services/mbridge.py`, with
`src/app/services/mbridg1.py` carrying an identical `_clean`) and proves or
refutes the specified properties.

Python strings are modelled as Lean `String`s (operated on through their
`List Char` data).  Python's `str.strip` / `str.rstrip` / `str.lower` /
`startswith` / substring `in` are modelled by executable functions defined
below; Unicode corner cases outside ASCII do not occur in any of the
statements considered.  Fallible Python code (raised `HTTPException`s,
network errors) is modelled with `Except String`.
-/

deriving instance DecidableEq for Except

/-- The characters Python's `str.strip()` removes (ASCII whitespace). -/
def pyIsSpace (c : Char) : Bool :=
  c = ' ' || c = '\t' || c = '\n' || c = '\r' || c = '\x0b' || c = '\x0c'

/-- Python's `l.startswith(p)` on character lists. -/
def leadsWith : List Char → List Char → Bool
  | [], _ => true
  | _ :: _, [] => false
  | a :: p, b :: l => a == b && leadsWith p l

/-- Python's substring test `pat in hay` on character lists. -/
def containsSub : List Char → List Char → Bool
  | [], pat => leadsWith pat []
  | c :: t, pat => leadsWith pat (c :: t) || containsSub t pat

/-- Remove the maximal suffix of characters satisfying `p`
(Python's `str.rstrip` family). -/
def rstripIf (p : Char → Bool) : List Char → List Char
  | [] => []
  | c :: t =>
    let r := rstripIf p t
    if r.isEmpty && p c then [] else c :: r

/-- Python's `str.strip()` on character lists. -/
def pyStripD (l : List Char) : List Char :=
  rstripIf pyIsSpace (l.dropWhile pyIsSpace)

/-- Python's `str.strip()`. -/
def pyStrip (s : String) : String := ⟨pyStripD s.data⟩

/-- Python's `str.lower()` (ASCII). -/
def pyLower (s : String) : String := ⟨s.data.map Char.toLower⟩

/-! ## src/main.py -/

/-- The banned-keyword list of `validate_read_only_sql` (`src/main.py:74`),
verbatim: each entry is padded with one space on each side. -/
def banned : List String :=
  [" insert ", " update ", " delete ", " drop ", " alter ", " create ",
   " truncate ", " grant ", " revoke ", " copy ", " do ", " call "]

/-- The banned keywords without their padding spaces. -/
def bannedWords : List String :=
  ["insert", "update", "delete", "drop", "alter", "create",
   "truncate", "grant", "revoke", "copy", "do", "call"]

/-- The Safety Gate `validate_read_only_sql` (`src/main.py:70-79`).  A raised
`HTTPException` is modelled as `Except.error` with its detail message; the
Python function's `return True` is `Except.ok ()`. -/
def validate_read_only_sql (sql : String) : Except String Unit :=
  let s := pyLower (pyStrip sql)
  if ¬ (leadsWith "select".data s.data) then
    .error "Only SELECT queries are allowed."
  else
    let s_spaced := " " ++ s ++ " "
    if banned.any (fun kw => containsSub s_spaced.data kw.data) then
      .error "Write/DDL statements are not allowed."
    else
      .ok ()

/-- The row-limit helper `add_optional_limit` (`src/main.py:81-85`).
Python's `if not limit`
is true for `None` and for `0`; `f"{stripped} LIMIT {limit};"` is the
appended tail. -/
def add_optional_limit (sql : String) (limit : Option Int) : String :=
  match limit with
  | none => sql
  | some n =>
    if n = 0 then sql
    else ⟨rstripIf (· == ';') (rstripIf pyIsSpace sql.data)
            ++ (" LIMIT " ++ toString n ++ ";").data⟩

/-! ## Basic lemmas about the string primitives -/

theorem leadsWith_iff (p : List Char) :
    ∀ l, leadsWith p l = true ↔ ∃ t, l = p ++ t := by
  induction p with
  | nil =>
    intro l
    simp [leadsWith]
  | cons a p ih =>
    intro l
    cases l with
    | nil =>
      simp [leadsWith]
    | cons b t =>
      simp only [leadsWith, Bool.and_eq_true, beq_iff_eq, ih]
      constructor
      · rintro ⟨rfl, u, rfl⟩
        exact ⟨u, rfl⟩
      · rintro ⟨u, hu⟩
        cases hu
        exact ⟨rfl, u, rfl⟩

theorem containsSub_iff (hay pat : List Char) :
    containsSub hay pat = true ↔ ∃ pre post, hay = pre ++ pat ++ post := by
  induction hay with
  | nil =>
    simp only [containsSub, leadsWith_iff]
    constructor
    · rintro ⟨t, ht⟩
      exact ⟨[], t, ht⟩
    · rintro ⟨pre, post, h⟩
      cases pre with
      | nil => exact ⟨post, h⟩
      | cons c p => simp at h
  | cons c t ih =>
    simp only [containsSub, Bool.or_eq_true, leadsWith_iff, ih]
    constructor
    · rintro (⟨u, hu⟩ | ⟨pre, post, h⟩)
      · exact ⟨[], u, hu⟩
      · exact ⟨c :: pre, post, by simp [h]⟩
    · rintro ⟨pre, post, h⟩
      cases pre with
      | nil => exact Or.inl ⟨post, h⟩
      | cons d p =>
        simp only [List.cons_append, List.cons.injEq] at h
        exact Or.inr ⟨p, post, h.2⟩

theorem rstripIf_concat (p : Char → Bool) (l : List Char) (x : Char) :
    rstripIf p (l ++ [x]) = if p x then rstripIf p l else l ++ [x] := by
  induction l with
  | nil =>
    by_cases h : p x <;> simp [rstripIf, h]
  | cons c t ih =>
    show (if (rstripIf p (t ++ [x])).isEmpty && p c then []
          else c :: rstripIf p (t ++ [x]))
        = if p x then rstripIf p (c :: t) else (c :: t) ++ [x]
    rw [ih]
    by_cases h : p x
    · simp only [h, if_true]
      rfl
    · simp only [h, if_false]
      simp

theorem rstripIf_last (p : Char → Bool) :
    ∀ l, rstripIf p l = [] ∨ ∃ m x, rstripIf p l = m ++ [x] ∧ p x = false := by
  intro l
  induction l with
  | nil => exact Or.inl rfl
  | cons c t ih =>
    by_cases h : ((rstripIf p t).isEmpty && p c) = true
    · left; simp [rstripIf, h]
    · right
      have hg : rstripIf p (c :: t) = c :: rstripIf p t := by
        simp only [rstripIf]; simp [h]
      rcases ih with h0 | ⟨m, x, hm, hx⟩
      · refine ⟨[], c, by simp [hg, h0], ?_⟩
        cases hpc : p c with
        | false => rfl
        | true => exact absurd (by simp [h0, hpc]) h
      · exact ⟨c :: m, x, by simp [hg, hm], hx⟩

theorem rstripIf_head (p : Char → Bool) :
    ∀ l, rstripIf p l = [] ∨ (rstripIf p l).head? = l.head? := by
  intro l
  cases l with
  | nil => exact Or.inl rfl
  | cons c t =>
    by_cases h : ((rstripIf p t).isEmpty && p c) = true
    · left; simp [rstripIf, h]
    · right
      have hg : rstripIf p (c :: t) = c :: rstripIf p t := by
        simp only [rstripIf]; simp [h]
      simp [hg]

theorem rstripIf_idem (p : Char → Bool) (l : List Char) :
    rstripIf p (rstripIf p l) = rstripIf p l := by
  induction l with
  | nil => rfl
  | cons c t ih =>
    by_cases h : ((rstripIf p t).isEmpty && p c) = true
    · simp [rstripIf, h]
    · have hg : rstripIf p (c :: t) = c :: rstripIf p t := by
        simp only [rstripIf]; simp [h]
      rw [hg]
      have hg2 : rstripIf p (c :: rstripIf p t)
          = if (rstripIf p (rstripIf p t)).isEmpty && p c then []
            else c :: rstripIf p (rstripIf p t) := by
        simp only [rstripIf]
      rw [hg2, ih]
      simp [h]

/-! ## C9: limit of `None` and of `0` are both no-ops -/

/-- C9: for every SQL string `s`, `add_optional_limit s none = s` and
`add_optional_limit s (some 0) = s`: a requested row limit of zero is
treated like no limit (Python's falsy `if not limit`), even though the
request model accepts any optional integer. -/
theorem claim_C9 (s : String) :
    add_optional_limit s none = s ∧ add_optional_limit s (some 0) = s :=
  ⟨rfl, by simp [add_optional_limit]⟩

/-! ## C2: applying the row limit twice stacks two LIMIT clauses -/

/-- C2 counterexample: `add_optional_limit` is not idempotent; applying it
twice with limit 5 to `"select 1"` yields two stacked LIMIT clauses. -/
theorem claim_C2_cex :
    add_optional_limit (add_optional_limit "select 1" (some 5)) (some 5)
        = "select 1 LIMIT 5 LIMIT 5;" ∧
      add_optional_limit "select 1" (some 5) = "select 1 LIMIT 5;" := by
  constructor <;> decide

/-- Every character `Nat.digitChar` can produce is neither `';'` nor
whitespace. -/
theorem digitChar_ok (k : Nat) :
    Nat.digitChar k ≠ ';' ∧ pyIsSpace (Nat.digitChar k) = false := by
  rcases Nat.lt_or_ge k 16 with h | h
  · interval_cases k <;> decide
  · have hstar : Nat.digitChar k = '*' := by
      unfold Nat.digitChar
      repeat rw [if_neg (by omega)]
    rw [hstar]
    decide

/-- The digit printer `Nat.toDigitsCore` only prepends digit characters to
its accumulator. -/
theorem toDigitsCore_shape (f : Nat) :
    ∀ n ds, ∃ l, Nat.toDigitsCore 10 f n ds = l ++ ds ∧
      ∀ c ∈ l, c ≠ ';' ∧ pyIsSpace c = false := by
  induction f with
  | zero => exact fun n ds => ⟨[], rfl, by simp⟩
  | succ f ih =>
    intro n ds
    rw [Nat.toDigitsCore]
    by_cases h : n / 10 = 0
    · refine ⟨[Nat.digitChar (n % 10)], by simp [h], ?_⟩
      intro c hc
      simp only [List.mem_singleton] at hc
      subst hc
      exact digitChar_ok _
    · obtain ⟨l, hl, hp⟩ := ih (n / 10) (Nat.digitChar (n % 10) :: ds)
      rw [if_neg h, hl]
      refine ⟨l ++ [Nat.digitChar (n % 10)], by simp, ?_⟩
      intro c hc
      rcases List.mem_append.mp hc with h1 | h1
      · exact hp c h1
      · simp only [List.mem_singleton] at h1
        subst h1
        exact digitChar_ok _

/-- The decimal digits of a `Nat` form a nonempty list whose characters are
neither `';'` nor whitespace. -/
theorem toDigits_shape (n : Nat) :
    ∃ l c, Nat.toDigits 10 n = l ++ [c] ∧ c ≠ ';' ∧ pyIsSpace c = false ∧
      ∀ x ∈ l, x ≠ ';' ∧ pyIsSpace x = false := by
  unfold Nat.toDigits
  rw [Nat.toDigitsCore]
  by_cases h : n / 10 = 0
  · exact ⟨[], Nat.digitChar (n % 10), by simp [h], (digitChar_ok _).1,
      (digitChar_ok _).2, by simp⟩
  · obtain ⟨l, hl, hp⟩ := toDigitsCore_shape n (n / 10) [Nat.digitChar (n % 10)]
    rw [if_neg h, hl]
    exact ⟨l, Nat.digitChar (n % 10), rfl, (digitChar_ok _).1,
      (digitChar_ok _).2, hp⟩

/-- For a positive `Int`, `toString` produces a nonempty digit string whose
last character is neither `';'` nor whitespace. -/
theorem toString_int_shape (n : Int) (h : 0 < n) :
    ∃ l c, (toString n).data = l ++ [c] ∧ c ≠ ';' ∧ pyIsSpace c = false := by
  cases n with
  | ofNat m =>
    have : (toString (Int.ofNat m)).data = Nat.toDigits 10 m := rfl
    rw [this]
    obtain ⟨l, c, hl, hc1, hc2, _⟩ := toDigits_shape m
    exact ⟨l, c, hl, hc1, hc2⟩
  | negSucc m => exact absurd h (by simp)

/-- C2 (amended): applying the row-limit operation twice with the same
positive limit `n` does not collapse to a single clause; instead the second
application strips only the trailing `';'` and appends a second
`LIMIT n` clause, so the result carries two stacked LIMIT clauses. -/
theorem claim_C2 (s : String) (n : Int) (h : 0 < n) :
    add_optional_limit (add_optional_limit s (some n)) (some n)
      = ⟨rstripIf (· == ';') (rstripIf pyIsSpace s.data)
          ++ (" LIMIT " ++ toString n ++ " LIMIT " ++ toString n ++ ";").data⟩ := by
  have hn0 : n ≠ 0 := by omega
  obtain ⟨l, c, hl, hc1, hc2⟩ := toString_int_shape n h
  set A := rstripIf (· == ';') (rstripIf pyIsSpace s.data) with hA
  have hdata : (" LIMIT " ++ toString n ++ ";").data
      = " LIMIT ".data ++ ((l ++ [c]) ++ [';']) := by
    simp [String.data_append, hl]
  have hinner : add_optional_limit s (some n)
      = ⟨A ++ (" LIMIT " ++ toString n ++ ";").data⟩ := by
    simp [add_optional_limit, hn0]
  rw [hinner]
  simp only [add_optional_limit, hn0, if_false, ite_false]
  refine congrArg String.mk ?_
  rw [hdata]
  have e1 : A ++ (" LIMIT ".data ++ ((l ++ [c]) ++ [';']))
      = (((A ++ " LIMIT ".data) ++ l) ++ [c]) ++ [';'] := by
    simp [List.append_assoc]
  rw [e1]
  rw [rstripIf_concat, if_neg (by decide)]
  rw [rstripIf_concat, if_pos (by decide)]
  rw [rstripIf_concat, if_neg (by simp [hc1])]
  simp [String.data_append, hl, List.append_assoc]

/-- Witness for C2 at `s = "select 1"`, `n = 5`. -/
theorem claim_C2_witness :
    (0 : Int) < 5 ∧
      add_optional_limit (add_optional_limit "select 1" (some 5)) (some 5)
        = ⟨rstripIf (· == ';') (rstripIf pyIsSpace "select 1".data)
            ++ (" LIMIT " ++ toString (5 : Int) ++ " LIMIT "
                ++ toString (5 : Int) ++ ";").data⟩ :=
  ⟨by decide, claim_C2 "select 1" 5 (by decide)⟩

/-! ## C4: what acceptance says about the start of the statement -/

/-- The first whitespace-delimited token of a string. -/
def firstWord (s : String) : String :=
  ⟨(s.data.dropWhile pyIsSpace).takeWhile (fun c => !(pyIsSpace c))⟩

/-- C4 counterexample: `"selectx 1"` is accepted by the Safety Gate (the
code only checks the prefix `"select"`), yet its first whitespace-delimited
token is `"selectx"`, not `"select"`. -/
theorem claim_C4_cex :
    validate_read_only_sql "selectx 1" = .ok () ∧
      firstWord (pyLower (pyStrip "selectx 1")) ≠ "select" := by
  constructor <;> decide

/-- Helper: acceptance by the Safety Gate forces the `"select"` prefix. -/
theorem validate_ok_select (s : String)
    (h : validate_read_only_sql s = .ok ()) :
    leadsWith "select".data (pyLower (pyStrip s)).data = true := by
  by_cases hsel : leadsWith "select".data (pyLower (pyStrip s)).data = true
  · exact hsel
  · exfalso
    simp only [validate_read_only_sql, hsel] at h
    simp at h

/-- C4 (amended): every SQL string accepted by the Safety Gate has, after
trimming and lowercasing, `"select"` as a prefix — but not necessarily as
a whole whitespace-delimited first token (see the counterexample). -/
theorem claim_C4 (s : String) (h : validate_read_only_sql s = .ok ()) :
    leadsWith "select".data (pyLower (pyStrip s)).data = true :=
  validate_ok_select s h

/-- Witness for C4 at the accepted statement `"select 1"`. -/
theorem claim_C4_witness :
    validate_read_only_sql "select 1" = .ok () ∧
      leadsWith "select".data (pyLower (pyStrip "select 1")).data = true :=
  ⟨by decide, claim_C4 "select 1" (by decide)⟩

/-! ## Keyword occurrences and the space-padded substring search -/

/-- Predicate `spaceTokenAt kw t i`: the keyword `kw` occurs in `t` at
position `i`,
delimited on the left by the string start or a space character, and on the
right by the string end or a space character.  This is exactly the kind of
occurrence the Safety Gate's `" kw " in f" {s} "` search detects. -/
def spaceTokenAt (kw t : List Char) (i : Nat) : Prop :=
  leadsWith kw (t.drop i) = true ∧
    (i = 0 ∨ t[i - 1]? = some ' ') ∧
    (i + kw.length = t.length ∨ t[i + kw.length]? = some ' ')

instance (kw t : List Char) (i : Nat) : Decidable (spaceTokenAt kw t i) := by
  unfold spaceTokenAt
  infer_instance

/-- Characterisation of acceptance by the Safety Gate: the normalized
statement starts with `"select"` and no padded banned keyword occurs in the
space-padded statement. -/
theorem validate_ok_iff (s : String) :
    validate_read_only_sql s = .ok () ↔
      leadsWith "select".data (pyLower (pyStrip s)).data = true ∧
        banned.any (fun kw =>
          containsSub (" " ++ pyLower (pyStrip s) ++ " ").data kw.data) = false := by
  unfold validate_read_only_sql
  by_cases h1 : leadsWith "select".data (pyLower (pyStrip s)).data = true
  · by_cases h2 : banned.any (fun kw =>
        containsSub (" " ++ pyLower (pyStrip s) ++ " ").data kw.data) = true
    · simp [h1, h2]
    · simp [h1, h2]
  · simp [h1]

/-- The padded banned list is the word list with one space glued to each
side. -/
theorem banned_eq_map :
    banned = bannedWords.map (fun w => " " ++ w ++ " ") := by decide

/-- Data of a space-padded string. -/
theorem pad_data (x : String) :
    (" " ++ x ++ " ").data = ' ' :: x.data ++ [' '] := by
  simp [String.data_append]

/-- A space-or-edge-delimited occurrence of `kw` in `t` makes the padded
keyword a substring of the padded statement (soundness of the padding
trick). -/
theorem spaceTokenAt_containsSub (kw t : List Char) (i : Nat) (hne : kw ≠ [])
    (h : spaceTokenAt kw t i) :
    containsSub (' ' :: t ++ [' ']) (' ' :: kw ++ [' ']) = true := by
  obtain ⟨hocc, hleft, hright⟩ := h
  obtain ⟨rest, hrest⟩ := (leadsWith_iff kw (t.drop i)).mp hocc
  have hi : i ≤ t.length := by
    by_contra hgt
    have hd0 : t.drop i = [] := List.drop_eq_nil_of_le (by omega)
    rw [hd0] at hrest
    cases kw with
    | nil => exact hne rfl
    | cons a b => simp at hrest
  have hlen : i + kw.length + rest.length = t.length := by
    have := congrArg List.length hrest
    simp [List.length_drop] at this
    omega
  have hrest_eq : rest = t.drop (i + kw.length) := by
    have h1 : (t.drop i).drop kw.length = rest := by
      rw [hrest]
      exact List.drop_left kw rest
    rw [List.drop_drop] at h1
    rw [← h1, Nat.add_comm]
  have hrest_shape : rest = [] ∨ ∃ r, rest = ' ' :: r := by
    rcases hright with hr | hr
    · left
      rw [hrest_eq, hr]
      exact List.drop_length t
    · right
      have hh : rest.head? = some ' ' := by
        rw [hrest_eq, List.head?_drop]
        exact hr
      cases rest with
      | nil => simp at hh
      | cons c r =>
        simp at hh
        exact ⟨r, by rw [hh]⟩
  rw [containsSub_iff]
  rcases Nat.eq_zero_or_pos i with hzero | hipos
  · subst hzero
    rw [List.drop_zero] at hrest
    rcases hrest_shape with hr0 | ⟨r, hr0⟩
    · refine ⟨[], [], ?_⟩
      rw [hrest, hr0]
      simp
    · refine ⟨[], r ++ [' '], ?_⟩
      rw [hrest, hr0]
      simp
  · have hsp : t[i - 1]? = some ' ' := by
      rcases hleft with hzero | hsp
      · omega
      · exact hsp
    obtain ⟨j, hj⟩ : ∃ j, i = j + 1 := ⟨i - 1, by omega⟩
    subst hj
    simp only [Nat.add_sub_cancel] at hsp
    have hjlt : j < t.length := by omega
    have htj : t[j] = ' ' := by
      have hg := List.getElem?_eq_getElem hjlt
      rw [hg] at hsp
      exact Option.some_inj.mp hsp
    have hdropj : t.drop j = ' ' :: (kw ++ rest) := by
      rw [List.drop_eq_getElem_cons hjlt, htj, hrest]
    have hsplit : t = t.take j ++ ' ' :: (kw ++ rest) := by
      rw [← hdropj, List.take_append_drop]
    rcases hrest_shape with hr0 | ⟨r, hr0⟩
    · refine ⟨' ' :: t.take j, [], ?_⟩
      conv_lhs => rw [hsplit]
      rw [hr0]
      simp
    · refine ⟨' ' :: t.take j, r ++ [' '], ?_⟩
      conv_lhs => rw [hsplit]
      rw [hr0]
      simp

/-- If the padded keyword is a substring of the space-padded statement,
then the keyword occurs in the statement delimited by spaces or the string
ends (completeness of the padding trick). -/
theorem containsSub_spaceTokenAt (kw t : List Char) (hne : kw ≠ [])
    (h : containsSub (' ' :: t ++ [' ']) (' ' :: kw ++ [' ']) = true) :
    ∃ i, i + kw.length ≤ t.length ∧ spaceTokenAt kw t i := by
  obtain ⟨pre, post, heq⟩ := (containsSub_iff _ _).mp h
  have main : ∀ q : List Char, t ++ [' '] = q ++ (kw ++ ([' '] ++ post)) →
      q.length + kw.length ≤ t.length ∧
        leadsWith kw (t.drop q.length) = true ∧
        (q.length + kw.length = t.length ∨ t[q.length + kw.length]? = some ' ') := by
    intro q he
    have hlen : q.length + kw.length + post.length = t.length := by
      have := congrArg List.length he
      simp at this
      omega
    have hqle : q.length ≤ t.length := by omega
    have hdropq : t.drop q.length ++ [' '] = kw ++ ([' '] ++ post) := by
      have h1 : (t ++ [' ']).drop q.length = kw ++ ([' '] ++ post) := by
        rw [he]
        exact List.drop_left q _
      rw [List.drop_append_eq_append_drop] at h1
      have h2 : [' '].drop (q.length - t.length) = [' '] := by
        have h0 : q.length - t.length = 0 := by omega
        rw [h0, List.drop_zero]
      rw [h2] at h1
      exact h1
    have hkwle : kw.length ≤ (t.drop q.length).length := by
      rw [List.length_drop]
      omega
    have htake : (t.drop q.length).take kw.length = kw := by
      have h1 : (t.drop q.length ++ [' ']).take kw.length
          = (t.drop q.length).take kw.length :=
        List.take_append_of_le_length hkwle
      rw [hdropq] at h1
      rw [← h1, List.take_left]
    have hlw : leadsWith kw (t.drop q.length) = true := by
      rw [leadsWith_iff]
      refine ⟨(t.drop q.length).drop kw.length, ?_⟩
      conv_lhs => rw [← List.take_append_drop kw.length (t.drop q.length)]
      rw [htake]
    refine ⟨by omega, hlw, ?_⟩
    rcases Nat.eq_or_lt_of_le (show q.length + kw.length ≤ t.length by omega)
      with heqlen | hltlen
    · exact Or.inl heqlen
    · right
      have hdrop2 : t.drop (q.length + kw.length) ++ [' '] = [' '] ++ post := by
        have h1 : (t.drop q.length ++ [' ']).drop kw.length
            = (kw ++ ([' '] ++ post)).drop kw.length := by rw [hdropq]
        rw [List.drop_append_eq_append_drop] at h1
        have h2 : [' '].drop (kw.length - (t.drop q.length).length) = [' '] := by
          have h0 : kw.length - (t.drop q.length).length = 0 := by omega
          rw [h0, List.drop_zero]
        rw [h2, List.drop_drop, List.drop_left kw] at h1
        exact h1
      have hne2 : t.drop (q.length + kw.length) ≠ [] := by
        intro hnil
        have := congrArg List.length hnil
        simp [List.length_drop] at this
        omega
      cases hd : t.drop (q.length + kw.length) with
      | nil => exact absurd hd hne2
      | cons c r =>
        rw [hd] at hdrop2
        simp at hdrop2
        have hc : c = ' ' := hdrop2.1
        have hg : t[q.length + kw.length]? = some c := by
          rw [← List.head?_drop, hd]
          simp
        rw [hg, hc]
  cases pre with
  | nil =>
    simp only [List.nil_append, List.cons_append] at heq
    have heq2 : t ++ [' '] = [] ++ (kw ++ ([' '] ++ post)) := by
      have := List.tail_eq_of_cons_eq heq
      simpa using this
    obtain ⟨hle, hlw, hr⟩ := main [] heq2
    exact ⟨0, by simpa using hle, by simpa using hlw, Or.inl rfl, by simpa using hr⟩
  | cons p pre' =>
    simp only [List.cons_append] at heq
    have hp : p = ' ' := (List.head_eq_of_cons_eq heq).symm
    have heq2 : t ++ [' '] = (pre' ++ [' ']) ++ (kw ++ ([' '] ++ post)) := by
      have := List.tail_eq_of_cons_eq heq
      simp only [List.append_assoc]
      simpa [List.append_assoc] using this
    obtain ⟨hle, hlw, hr⟩ := main (pre' ++ [' ']) heq2
    simp only [List.length_append, List.length_singleton] at hle hlw hr
    have hkwpos : 0 < kw.length := List.length_pos.mpr hne
    refine ⟨pre'.length + 1, by omega, hlw, ?_, hr⟩
    right
    have hplt : pre'.length < t.length := by omega
    have h1 : (t ++ [' '])[pre'.length]? = t[pre'.length]? :=
      List.getElem?_append_left hplt
    have h2 : (t ++ [' '])[pre'.length]? = some ' ' := by
      rw [heq2]
      have h3 : ((pre' ++ [' ']) ++ (kw ++ ([' '] ++ post)))[pre'.length]?
          = (pre' ++ [' '])[pre'.length]? :=
        List.getElem?_append_left (by simp)
      rw [h3]
      rw [List.getElem?_concat_length]
    simp only [Nat.add_sub_cancel]
    rw [← h1, h2]

/-! ## C3: which standalone keyword occurrences the Gate rejects -/

/-- C3 counterexample: in `"select 1;drop table t"` the banned keyword
`drop` occurs as a standalone token delimited by the token boundary `';'`
on the left and a space on the right, yet the Safety Gate accepts the
string: the search only detects space-delimited occurrences. -/
theorem claim_C3_cex :
    validate_read_only_sql "select 1;drop table t" = .ok () ∧
      leadsWith "drop".data
        ((pyLower (pyStrip "select 1;drop table t")).data.drop 9) = true ∧
      (pyLower (pyStrip "select 1;drop table t")).data[8]? = some ';' ∧
      (pyLower (pyStrip "select 1;drop table t")).data[13]? = some ' ' := by
  refine ⟨by decide, by decide, by decide, by decide⟩

/-- Helper: the Safety Gate rejects every SQL string carrying a
space-or-edge-delimited occurrence of a banned keyword. -/
theorem gate_rejects_spaceToken (s : String) (kw : String)
    (hkw : kw ∈ bannedWords) (i : Nat)
    (h : spaceTokenAt kw.data (pyLower (pyStrip s)).data i) :
    validate_read_only_sql s ≠ .ok () := by
  intro hok
  rw [validate_ok_iff] at hok
  have hne : kw.data ≠ [] := by
    have hall : ∀ w ∈ bannedWords, w.data ≠ [] := by decide
    exact hall kw hkw
  have hsub := spaceTokenAt_containsSub kw.data (pyLower (pyStrip s)).data i hne h
  have hany : banned.any (fun k =>
      containsSub (" " ++ pyLower (pyStrip s) ++ " ").data k.data) = true := by
    rw [List.any_eq_true]
    refine ⟨" " ++ kw ++ " ", ?_, ?_⟩
    · rw [banned_eq_map]
      exact List.mem_map.mpr ⟨kw, hkw, rfl⟩
    · rw [pad_data, pad_data]
      exact hsub
  rw [hok.2] at hany
  exact Bool.false_ne_true hany

/-- C3 (amended): the Safety Gate rejects every SQL string in which a
banned keyword occurs as a standalone token delimited on both sides by a
space or a string boundary of the normalized statement (for every case
variant, via lowercasing) — but occurrences delimited by other token
boundaries such as `';'`, `'('` or `','` are not detected (see the
counterexample). -/
theorem claim_C3 (s : String) (kw : String) (hkw : kw ∈ bannedWords) (i : Nat)
    (h : spaceTokenAt kw.data (pyLower (pyStrip s)).data i) :
    validate_read_only_sql s ≠ .ok () :=
  gate_rejects_spaceToken s kw hkw i h

/-- Witness for C3: `"SELECT 1 where Update 2"` carries a space-delimited
`Update` (mixed case) at position 15 of the normalized statement and is
rejected. -/
theorem claim_C3_witness :
    spaceTokenAt "update".data
        (pyLower (pyStrip "SELECT 1 where Update 2")).data 15 ∧
      "update" ∈ bannedWords ∧
      validate_read_only_sql "SELECT 1 where Update 2" ≠ .ok () :=
  ⟨by decide, by decide,
    claim_C3 "SELECT 1 where Update 2" "update" (by decide) 15 (by decide)⟩

/-! ## C5: keywords embedded in identifiers never trigger rejection -/

/-- C5: if the normalized statement starts with `"select"` and every
occurrence of every banned keyword in it fails to be bounded by
whitespace-or-string-end on both sides (i.e. each occurrence is embedded in
a longer identifier), then the Safety Gate accepts the string — the
rejection branch is unreachable under this precondition. -/
theorem claim_C5 (s : String)
    (h1 : leadsWith "select".data (pyLower (pyStrip s)).data = true)
    (h2 : ∀ kw ∈ bannedWords, ∀ i < (pyLower (pyStrip s)).data.length,
        leadsWith kw.data ((pyLower (pyStrip s)).data.drop i) = true →
        ¬((i = 0 ∨ ((pyLower (pyStrip s)).data[i - 1]?).any pyIsSpace = true) ∧
          (i + kw.data.length = (pyLower (pyStrip s)).data.length ∨
            ((pyLower (pyStrip s)).data[i + kw.data.length]?).any pyIsSpace
              = true))) :
    validate_read_only_sql s = .ok () := by
  rw [validate_ok_iff]
  refine ⟨h1, ?_⟩
  cases hany : banned.any (fun k =>
      containsSub (" " ++ pyLower (pyStrip s) ++ " ").data k.data) with
  | false => rfl
  | true =>
    exfalso
    obtain ⟨pk, hpkmem, hpk⟩ := List.any_eq_true.mp hany
    rw [banned_eq_map] at hpkmem
    obtain ⟨w, hw, rfl⟩ := List.mem_map.mp hpkmem
    rw [pad_data, pad_data] at hpk
    have hne : w.data ≠ [] :=
      (by decide : ∀ x ∈ bannedWords, x.data ≠ []) w hw
    obtain ⟨i, hile, hocc, hleft, hright⟩ :=
      containsSub_spaceTokenAt w.data _ hne hpk
    have hwpos : 0 < w.data.length := List.length_pos.mpr hne
    refine h2 w hw i (by omega) hocc ⟨?_, ?_⟩
    · rcases hleft with h0 | hsp
      · exact Or.inl h0
      · right
        rw [hsp]
        decide
    · rcases hright with h0 | hsp
      · exact Or.inl h0
      · right
        rw [hsp]
        decide

/-- Witness for C5: `"SELECT updated_at FROM forex_bars"` contains the
banned keyword `update` only inside the identifier `updated_at`, and is
accepted. -/
theorem claim_C5_witness :
    leadsWith "select".data
        (pyLower (pyStrip "SELECT updated_at FROM forex_bars")).data = true ∧
      validate_read_only_sql "SELECT updated_at FROM forex_bars" = .ok () :=
  ⟨by decide,
    claim_C5 "SELECT updated_at FROM forex_bars" (by decide) (by decide)⟩

/-! ## C1: the /ask endpoint validates before executing -/

/-- A YAML registry entry (`queries_registry.yml`); optional fields model
Python's `entry.get(...)` returning `None`. -/
structure RegistryEntry where
  natural_language_question : String
  sql_query : Option String
  business_interpretation : Option String
  source_url : Option String
deriving DecidableEq

/-- The triple returned by `ask_lmstudio_generate` (`src/main.py:112`). -/
structure GenResult where
  sql : String
  interpretation : String
  source_url : Option String
deriving DecidableEq

/-- The request model `QuestionRequest` (`src/main.py:47-50`); `params` is
reserved and never read by the endpoint. -/
structure QuestionRequest where
  question : String
  limit : Option Int
  params : Option (List (String × String)) := none
deriving DecidableEq

/-- The registry scan of `ask_query` (`src/main.py:173-175`): first entry
whose stripped question matches `q_in` case-insensitively. -/
def findMatch (q_in : String) : List RegistryEntry → Option RegistryEntry
  | [] => none
  | e :: rest =>
    if pyLower q_in = pyLower (pyStrip e.natural_language_question)
    then some e
    else findMatch q_in rest

/-- The generative fallback path of `ask_query` (`src/main.py:192-222`):
invoke the Bridge, apply the limit, validate, then hand the SQL to the
Executor.  `bridge` abstracts `ask_lmstudio_generate`, which performs
network I/O; the result is the SQL string passed to `run_sql`, or the
first error raised before any execution. -/
def askGenPath (bridge : String → Except String GenResult)
    (q_in : String) (limit : Option Int) : Except String String :=
  match bridge q_in with
  | .error e => .error e
  | .ok gen =>
    let s := add_optional_limit gen.sql limit
    match validate_read_only_sql s with
    | .error e => .error e
    | .ok _ => .ok s

/-- The endpoint handler `ask_query` (`src/main.py:162-222`), abstracted
over the registry and
the Bridge, tracking the one SQL string that reaches the Executor
`run_sql` (or the error raised first). -/
def askQuerySql (registry : List RegistryEntry)
    (bridge : String → Except String GenResult)
    (req : QuestionRequest) : Except String String :=
  let q_in := pyStrip req.question
  match findMatch q_in registry with
  | some entry =>
    let sql := pyStrip (entry.sql_query.getD "")
    if sql = "" then askGenPath bridge q_in req.limit
    else
      let s := add_optional_limit sql req.limit
      match validate_read_only_sql s with
      | .error e => .error e
      | .ok _ => .ok s
  | none => askGenPath bridge q_in req.limit

/-- Any SQL delivered by the generative path was accepted by the Gate. -/
theorem askGenPath_validated (bridge : String → Except String GenResult)
    (q_in : String) (limit : Option Int) (s : String)
    (h : askGenPath bridge q_in limit = .ok s) :
    validate_read_only_sql s = .ok () := by
  unfold askGenPath at h
  cases hb : bridge q_in with
  | error e =>
    rw [hb] at h
    simp at h
  | ok gen =>
    rw [hb] at h
    dsimp only at h
    cases hv : validate_read_only_sql (add_optional_limit gen.sql limit) with
    | error e =>
      rw [hv] at h
      simp at h
    | ok u =>
      rw [hv] at h
      simp at h
      cases u
      rw [h] at hv
      exact hv

/-- C1 counterexample (to the second half of the claim): acceptance by the
Safety Gate does not establish that the statement is a single SELECT over
`forex_bars`: `"select 1; select 2 from users"` is accepted, contains a
second `;`-separated statement, and never mentions `forex_bars` (so it
cannot reference only that table). -/
theorem claim_C1_cex :
    validate_read_only_sql "select 1; select 2 from users" = .ok () ∧
      containsSub (pyLower (pyStrip "select 1; select 2 from users")).data
        "; select".data = true ∧
      containsSub (pyLower (pyStrip "select 1; select 2 from users")).data
        "forex_bars".data = false := by
  refine ⟨by decide, by decide, by decide⟩

/-- C1 (amended): every SQL string on which the Executor `run_sql` is
invoked by the `/ask` endpoint has previously been accepted by the Safety
Gate, and acceptance establishes that the normalized statement starts with
`"select"` and contains no space-delimited standalone banned keyword — but
not that it is a single statement or that it references only
`forex_bars`. -/
theorem claim_C1 (registry : List RegistryEntry)
    (bridge : String → Except String GenResult) (req : QuestionRequest)
    (s : String) (h : askQuerySql registry bridge req = .ok s) :
    validate_read_only_sql s = .ok () ∧
      leadsWith "select".data (pyLower (pyStrip s)).data = true ∧
      ∀ kw ∈ bannedWords, ∀ i,
        ¬ spaceTokenAt kw.data (pyLower (pyStrip s)).data i := by
  have hval : validate_read_only_sql s = .ok () := by
    unfold askQuerySql at h
    dsimp only at h
    cases hf : findMatch (pyStrip req.question) registry with
    | none =>
      rw [hf] at h
      exact askGenPath_validated _ _ _ _ h
    | some entry =>
      rw [hf] at h
      dsimp only at h
      by_cases hsql : pyStrip (entry.sql_query.getD "") = ""
      · rw [if_pos hsql] at h
        exact askGenPath_validated _ _ _ _ h
      · rw [if_neg hsql] at h
        cases hv : validate_read_only_sql
            (add_optional_limit (pyStrip (entry.sql_query.getD ""))
              req.limit) with
        | error e =>
          rw [hv] at h
          simp at h
        | ok u =>
          rw [hv] at h
          simp at h
          cases u
          rw [h] at hv
          exact hv
  refine ⟨hval, validate_ok_select s hval, ?_⟩
  intro kw hkw i hocc
  exact gate_rejects_spaceToken s kw hkw i hocc hval

/-- Witness for C1: a one-entry registry whose SQL `"select 1"` reaches
the Executor and was accepted by the Gate. -/
theorem claim_C1_witness :
    askQuerySql [⟨"q", some "select 1", none, none⟩]
        (fun _ => .error "bridge down") ⟨"q", none, none⟩ = .ok "select 1" ∧
      validate_read_only_sql "select 1" = .ok () :=
  ⟨by decide,
    (claim_C1 [⟨"q", some "select 1", none, none⟩]
      (fun _ => .error "bridge down") ⟨"q", none, none⟩ "select 1"
      (by decide)).1⟩

/-! ## C7: fenced code-block extraction in `ask_lmstudio_generate` -/

/-- Case-insensitive prefix test (models the `re.IGNORECASE` flag; the
pattern is given in lower case). -/
def leadsWithCI (p l : List Char) : Bool :=
  leadsWith p ((l.take p.length).map Char.toLower)

/-- Split a character list at the first occurrence of `pat`, returning the
text before the occurrence and the text after it — the search a lazy
`(.*?)` followed by a literal performs. -/
def splitAtSub (pat : List Char) : List Char → Option (List Char × List Char)
  | [] => if leadsWith pat [] then some ([], []) else none
  | c :: t =>
    if leadsWith pat (c :: t) then some ([], (c :: t).drop pat.length)
    else
      match splitAtSub pat t with
      | some (pre, post) => some (c :: pre, post)
      | none => none

/-- One attempt of the regex `` ```sql\s*(.*?)``` `` (IGNORECASE, DOTALL)
anchored at the start of `l`: the literal opener, a greedy whitespace run,
then the lazy group extending to the first closing fence.  (Shrinking the
greedy `\s*` can never reveal an earlier closing fence, since whitespace
contains no backtick, so no backtracking case is lost.) -/
def matchSqlAt (l : List Char) : Option (List Char) :=
  if leadsWithCI "```sql".data l then
    match splitAtSub "```".data ((l.drop 6).dropWhile pyIsSpace) with
    | some (g, _) => some g
    | none => none
  else none

/-- Model of `re.search` with the pattern above (`src/main.py:138`): try
every
start position from the left; the leftmost successful match wins. -/
def findSqlFence : List Char → Option (List Char)
  | [] => none
  | c :: t =>
    match matchSqlAt (c :: t) with
    | some g => some g
    | none => findSqlFence t

/-- A `\w` word character (ASCII). -/
def isWordChar (c : Char) : Bool :=
  c.isAlphanum || c = '_'

/-- One attempt of the fallback regex `` ```(?:\w+)?\s*(.*?)``` ``
(`src/main.py:141`): optional greedy word run (the info string), greedy
whitespace, lazy group to the first closing fence. -/
def matchAnyAt (l : List Char) : Option (List Char) :=
  if leadsWith "```".data l then
    match splitAtSub "```".data
        (((l.drop 3).dropWhile isWordChar).dropWhile pyIsSpace) with
    | some (g, _) => some g
    | none => none
  else none

/-- Model of `re.search` with the fallback pattern. -/
def findAnyFence : List Char → Option (List Char)
  | [] => none
  | c :: t =>
    match matchAnyAt (c :: t) with
    | some g => some g
    | none => findAnyFence t

/-- The code-block extraction of `ask_lmstudio_generate`
(`src/main.py:137-143`): the ```` ```sql ```` fence is preferred, any
fenced block is the fallback; `none` models the raised
"Could not parse SQL code block" `HTTPException`. -/
def extract_code_block (content : String) : Option String :=
  match findSqlFence content.data with
  | some g => some ⟨g⟩
  | none =>
    match findAnyFence content.data with
    | some g => some ⟨g⟩
    | none => none

/-- The parse step of `ask_lmstudio_generate` (`src/main.py:137-145`):
`sql_code = sql_block.group(1).strip()`, then
`sql_code = sql_code.split(";")[0].strip()` — first statement only.
(`x.split(";")[0]` is the longest `';'`-free prefix of `x`.) -/
def parse_sql_code (content : String) : Option String :=
  match extract_code_block content with
  | some b => some ⟨pyStripD ((pyStripD b.data).takeWhile (fun c => c != ';'))⟩
  | none => none

theorem rstripIf_mem (p : Char → Bool) :
    ∀ l c, c ∈ rstripIf p l → c ∈ l := by
  intro l
  induction l with
  | nil => intro c h; exact h
  | cons a t ih =>
    intro c h
    by_cases hc : ((rstripIf p t).isEmpty && p a) = true
    · rw [show rstripIf p (a :: t) = [] by simp [rstripIf, hc]] at h
      simp at h
    · have hg : rstripIf p (a :: t) = a :: rstripIf p t := by
        simp only [rstripIf]; simp [hc]
      rw [hg] at h
      rcases List.mem_cons.mp h with h1 | h1
      · exact h1 ▸ List.mem_cons_self a t
      · exact List.mem_cons_of_mem a (ih c h1)

theorem pyStripD_mem (l : List Char) (c : Char) (h : c ∈ pyStripD l) :
    c ∈ l := by
  unfold pyStripD at h
  exact (List.dropWhile_sublist pyIsSpace).mem (rstripIf_mem _ _ _ h)

/-- C7: extraction from the example response yields exactly `"SELECT 1"`;
in general the parse step returns the trimmed text before the first `';'`
of the trimmed extracted block, a result containing no `';'` at all. -/
theorem claim_C7 :
    parse_sql_code "prose\n```sql\nSELECT 1;\n```\nmore prose"
        = some "SELECT 1" ∧
      ∀ content b, extract_code_block content = some b →
        ∃ r, parse_sql_code content = some r ∧
          r.data = pyStripD ((pyStripD b.data).takeWhile (fun c => c != ';')) ∧
          ∀ c ∈ r.data, c ≠ ';' := by
  constructor
  · decide
  · intro content b hb
    refine ⟨⟨pyStripD ((pyStripD b.data).takeWhile (fun c => c != ';'))⟩,
      by simp [parse_sql_code, hb], rfl, ?_⟩
    intro c hc
    have h1 : c ∈ (pyStripD b.data).takeWhile (fun c => c != ';') :=
      pyStripD_mem _ _ hc
    have h2 := List.mem_takeWhile_imp (p := fun c => c != ';') h1
    simpa using h2

/-- Witness for C7 at the example response. -/
theorem claim_C7_witness :
    extract_code_block "prose\n```sql\nSELECT 1;\n```\nmore prose"
        = some "SELECT 1;\n" ∧
      ∃ r, parse_sql_code "prose\n```sql\nSELECT 1;\n```\nmore prose"
          = some r ∧
        r.data = pyStripD ((pyStripD "SELECT 1;\n".data).takeWhile
          (fun c => c != ';')) ∧
        ∀ c ∈ r.data, c ≠ ';' :=
  ⟨by decide,
    claim_C7.2 "prose\n```sql\nSELECT 1;\n```\nmore prose" "SELECT 1;\n"
      (by decide)⟩

/-! ## C8: the Executor's row conversion -/

/-- A Python value as delivered by the database driver.  `pyOther` covers
every non-`int`/`float`/`None`/`str` driver value (timestamps, decimals,
…) and carries its `str(...)` representation; Python `bool` is a subtype
of `int` and is subsumed by `pyInt`.  Floats take part in no arithmetic
here and are represented by rationals. -/
inductive PyVal where
  | pyInt (n : Int)
  | pyFloat (q : ℚ)
  | pyNone
  | pyStr (s : String)
  | pyOther (reprStr : String)
deriving DecidableEq

/-- Python's `isinstance(v, (int, float)) or v is None`. -/
def isNumOrNone : PyVal → Bool
  | .pyInt _ => true
  | .pyFloat _ => true
  | .pyNone => true
  | _ => false

/-- Python's `str(v)`. -/
def pyStrOf : PyVal → String
  | .pyInt n => toString n
  | .pyFloat q => toString q
  | .pyNone => "None"
  | .pyStr s => s
  | .pyOther r => r

/-- The row conversion `_json_friendly_rows` (`src/main.py:53-57`). -/
def _json_friendly_rows (rows : List (List PyVal)) : List (List PyVal) :=
  rows.map (fun r =>
    r.map (fun v => if isNumOrNone v then v else .pyStr (pyStrOf v)))

/-- The value returned by `run_sql` on success. -/
structure SqlResult where
  columns : List String
  rows : List (List PyVal)
deriving DecidableEq

/-- The Executor `run_sql` (`src/main.py:59-68`): the driver interaction
(`psycopg2.connect` / `execute` / `fetchall`) is abstracted as
`dbOutcome` — column names and raw rows on success, the driver message on
failure — and any failure is re-raised as a "Database error". -/
def run_sql (dbOutcome : Except String (List String × List (List PyVal))) :
    Except String SqlResult :=
  match dbOutcome with
  | .error e => .error ("Database error: " ++ e)
  | .ok (cols, rows) => .ok ⟨cols, _json_friendly_rows rows⟩

/-- C8: `run_sql`'s row conversion (`_json_friendly_rows`) preserves the
number of rows and the number and order of values within each row, passes
`int` and `float` values and `None` through unchanged, replaces every
other value by its string representation, and therefore every cell of the
returned result is a number, null, or a string. -/
theorem claim_C8 (cols : List String) (rows : List (List PyVal)) :
    run_sql (.ok (cols, rows)) = .ok ⟨cols, _json_friendly_rows rows⟩ ∧
      (_json_friendly_rows rows).length = rows.length ∧
      (∀ i : Nat, ((_json_friendly_rows rows)[i]?).map List.length
          = (rows[i]?).map List.length) ∧
      (∀ (i j : Nat) (v : PyVal), (rows[i]?.bind fun r => r[j]?) = some v →
        ((_json_friendly_rows rows)[i]?.bind fun r => r[j]?)
            = some (if isNumOrNone v then v else .pyStr (pyStrOf v))) ∧
      (∀ r ∈ _json_friendly_rows rows, ∀ v ∈ r,
        (∃ n, v = .pyInt n) ∨ (∃ q, v = .pyFloat q) ∨ v = .pyNone
          ∨ ∃ s, v = .pyStr s) := by
  refine ⟨rfl, List.length_map rows _, ?_, ?_, ?_⟩
  · intro i
    unfold _json_friendly_rows
    rw [List.getElem?_map]
    cases rows[i]? with
    | none => rfl
    | some r => simp
  · intro i j v h
    unfold _json_friendly_rows
    cases hr : rows[i]? with
    | none =>
      rw [hr] at h
      simp at h
    | some r =>
      rw [hr] at h
      simp at h
      rw [List.getElem?_map, hr]
      simp [List.getElem?_map, h]
  · intro r hr v hv
    obtain ⟨r0, _, rfl⟩ := List.mem_map.mp hr
    obtain ⟨v0, _, rfl⟩ := List.mem_map.mp hv
    cases v0 with
    | pyInt n => exact Or.inl ⟨n, rfl⟩
    | pyFloat q => exact Or.inr (Or.inl ⟨q, rfl⟩)
    | pyNone => exact Or.inr (Or.inr (Or.inl rfl))
    | pyStr s => exact Or.inr (Or.inr (Or.inr ⟨s, rfl⟩))
    | pyOther x => exact Or.inr (Or.inr (Or.inr ⟨x, rfl⟩))

/-- Witness for C8: a timestamp-like `pyOther` cell is stringified while
the `int` cell passes through. -/
theorem claim_C8_witness :
    run_sql (.ok (["a", "b"], [[.pyInt 3, .pyOther "2024-01-01"]]))
        = .ok ⟨["a", "b"],
            _json_friendly_rows [[.pyInt 3, .pyOther "2024-01-01"]]⟩ ∧
      (([[PyVal.pyInt 3, .pyOther "2024-01-01"]][0]?.bind fun r => r[1]?)
          = some (.pyOther "2024-01-01")) ∧
      (((_json_friendly_rows [[.pyInt 3, .pyOther "2024-01-01"]])[0]?.bind
          fun r => r[1]?)
            = some (if isNumOrNone (PyVal.pyOther "2024-01-01")
                then PyVal.pyOther "2024-01-01"
                else .pyStr (pyStrOf (PyVal.pyOther "2024-01-01")))) :=
  ⟨(claim_C8 ["a", "b"] [[.pyInt 3, .pyOther "2024-01-01"]]).1,
    by decide,
    (claim_C8 ["a", "b"] [[.pyInt 3, .pyOther "2024-01-01"]]).2.2.2.1 0 1
      (.pyOther "2024-01-01") (by decide)⟩


/-! ## src/app/services/mbridge.py (and the identical mbridg1.py) -/

/-- Test whether `l` ends with `pat` (Python's `str.endswith`). -/
def trailsWith (pat l : List Char) : Bool :=
  leadsWith pat.reverse l.reverse

theorem trailsWith_iff (pat l : List Char) :
    trailsWith pat l = true ↔ ∃ pre, l = pre ++ pat := by
  unfold trailsWith
  rw [leadsWith_iff]
  constructor
  · rintro ⟨u, hu⟩
    refine ⟨u.reverse, ?_⟩
    rw [← List.reverse_reverse l, hu]
    simp
  · rintro ⟨pre, rfl⟩
    exact ⟨pre.reverse, by simp⟩

/-- The anchored fence regex `` ^```(?:sql)?\s*([\s\S]*?)\s*```$ `` of
`_strip_fences` (`src/app/services/mbridge.py:44-47`), applied to an
already-stripped string `t`.  Since `t` has no trailing newline, the `$`
anchor forces the closing fence to be the final three characters, and the
two greedy `\s*` runs make the lazy group exactly the whitespace-trimmed
middle between the opener (with its optional case-insensitive `sql` tag)
and that closing fence.  Returns `group(1)` on a match. -/
def fenceInner (t : List Char) : Option (List Char) :=
  if leadsWith "```".data t then
    if leadsWithCI "sql".data (t.drop 3) then
      if trailsWith "```".data (t.drop 6) then
        some (pyStripD ((t.drop 6).take ((t.drop 6).length - 3)))
      else none
    else
      if trailsWith "```".data (t.drop 3) then
        some (pyStripD ((t.drop 3).take ((t.drop 3).length - 3)))
      else none
  else none

/-- Fence removal `_strip_fences` (`src/app/services/mbridge.py:44-47`;
the file
`src/app/services/mbridg1.py` carries an identical copy): strip, remove
one full fence if the whole string is fenced, strip the result. -/
def _strip_fences (sql_text : String) : String :=
  let t := pyStrip sql_text
  match fenceInner t.data with
  | some g => pyStrip ⟨g⟩
  | none => pyStrip t

/-- Normalization `_clean` (`src/app/services/mbridge.py:48-51`):
`sql.strip().rstrip(";") + ";"`. -/
def _clean (sql_text : String) : String :=
  let sql := _strip_fences sql_text
  ⟨rstripIf (· == ';') (pyStrip sql).data ++ ";".data⟩

theorem dropWhile_head_false (p : Char → Bool) :
    ∀ (l : List Char) (c : Char),
      (l.dropWhile p).head? = some c → p c = false := by
  intro l
  induction l with
  | nil =>
    intro c h
    simp at h
  | cons a t ih =>
    intro c h
    by_cases hp : p a = true
    · rw [List.dropWhile_cons, if_pos hp] at h
      exact ih c h
    · rw [List.dropWhile_cons, if_neg hp] at h
      simp at h
      rw [← h]
      simpa using hp

/-- A list of the shape `w ++ [x]` (or any of its drop-suffixes) cannot
end in a pattern whose last character differs from `x`. -/
theorem trails_concat_false (pat w : List Char) (x : Char) (hne : pat ≠ [])
    (hlast : pat.getLast? ≠ some x) (k : Nat) :
    trailsWith pat ((w ++ [x]).drop k) = false := by
  rw [List.drop_append_eq_append_drop]
  by_cases hk : k ≤ w.length
  · have h0 : k - w.length = 0 := by omega
    rw [h0, List.drop_zero]
    cases htw : trailsWith pat (w.drop k ++ [x]) with
    | false => rfl
    | true =>
      exfalso
      obtain ⟨pre, hpre⟩ := (trailsWith_iff _ _).mp htw
      have h1 : (w.drop k ++ [x]).getLast? = some x := List.getLast?_concat _
      have h2 : (pre ++ pat).getLast? = pat.getLast? := by
        cases pat with
        | nil => exact absurd rfl hne
        | cons a r => exact List.getLast?_append_cons pre a r
      rw [hpre, h2] at h1
      exact hlast h1
  · have h1 : w.drop k = [] := List.drop_eq_nil_of_le (by omega)
    have h2 : [x].drop (k - w.length) = [] :=
      List.drop_eq_nil_of_le (by simp; omega)
    rw [h1, h2]
    cases hp : pat.reverse with
    | nil => exact absurd (by simpa using hp) hne
    | cons a r => simp [trailsWith, hp, leadsWith]

/-- The fence regex never matches a string of the shape `w ++ ";"`. -/
theorem fenceInner_concat_semi (w : List Char) :
    fenceInner (w ++ [';']) = none := by
  have key : ∀ k, trailsWith "```".data ((w ++ [';']).drop k) = false :=
    fun k => trails_concat_false "```".data w ';' (by decide) (by decide) k
  unfold fenceInner
  by_cases h1 : leadsWith "```".data (w ++ [';']) = true
  · rw [if_pos h1]
    by_cases h2 : leadsWithCI "sql".data ((w ++ [';']).drop 3) = true
    · rw [if_pos h2, key 6]
      simp
    · rw [if_neg h2, key 3]
      simp
  · rw [if_neg h1]

/-- The core shape of `_clean`'s output: `y ++ ";"` with `y` free of a
leading whitespace character and of a trailing `';'`. -/
theorem clean_shape (x : String) :
    ∃ y, (_clean x).data = y ++ [';'] ∧
      y.getLast? ≠ some ';' ∧
      (y = [] ∨ ∃ c r, y = c :: r ∧ pyIsSpace c = false) ∧
      rstripIf (· == ';') y = y := by
  set m := (_strip_fences x).data with hm
  refine ⟨rstripIf (· == ';') (pyStripD m), rfl, ?_, ?_, ?_⟩
  · rcases rstripIf_last (· == ';') (pyStripD m) with h0 | ⟨l, c, hl, hc⟩
    · rw [h0]
      simp
    · rw [hl, List.getLast?_concat]
      simp at hc
      simp [hc]
  · rcases rstripIf_head (· == ';') (pyStripD m) with h0 | hh
    · exact Or.inl h0
    · cases hy : rstripIf (· == ';') (pyStripD m) with
      | nil => exact Or.inl rfl
      | cons c r =>
        right
        refine ⟨c, r, rfl, ?_⟩
        rw [hy] at hh
        simp at hh
        unfold pyStripD at hh
        rcases rstripIf_head pyIsSpace (m.dropWhile pyIsSpace) with h1 | h1
        · rw [h1] at hh
          simp at hh
        · rw [h1] at hh
          exact dropWhile_head_false pyIsSpace m c hh.symm
  · exact rstripIf_idem _ _

/-- Stripping is the identity on `y ++ ";"` when `y` has no leading
whitespace. -/
theorem pyStripD_concat_semi (y : List Char)
    (hy : y = [] ∨ ∃ c r, y = c :: r ∧ pyIsSpace c = false) :
    pyStripD (y ++ [';']) = y ++ [';'] := by
  unfold pyStripD
  have h1 : (y ++ [';']).dropWhile pyIsSpace = y ++ [';'] := by
    rcases hy with rfl | ⟨c, r, rfl, hc⟩
    · rw [List.nil_append, List.dropWhile_cons, if_neg (by decide)]
    · rw [List.cons_append, List.dropWhile_cons, if_neg (by simp [hc])]
  rw [h1, rstripIf_concat, if_neg (by decide)]

/-! ## C10: `_clean` ends in exactly one `';'` and is idempotent -/

/-- C10: `_clean` always returns a string ending in exactly one `';'`
(whatever precedes the final `';'` does not end in `';'`), and `_clean`
is idempotent: `_clean (_clean x) = _clean x` for every input. -/
theorem claim_C10 (x : String) :
    (∃ l, (_clean x).data = l ++ [';'] ∧ l.getLast? ≠ some ';') ∧
      _clean (_clean x) = _clean x := by
  obtain ⟨y, hdata, hlast, hhead, hfix⟩ := clean_shape x
  refine ⟨⟨y, hdata, hlast⟩, ?_⟩
  have hcx : _clean x = ⟨y ++ [';']⟩ := by
    cases hc : _clean x with
    | mk d =>
      rw [hc] at hdata
      have hd2 : d = y ++ [';'] := hdata
      rw [hd2]
  have hstrip : pyStrip ⟨y ++ [';']⟩ = ⟨y ++ [';']⟩ := by
    show (⟨pyStripD (y ++ [';'])⟩ : String) = _
    rw [pyStripD_concat_semi y hhead]
  have hfence : _strip_fences ⟨y ++ [';']⟩ = ⟨y ++ [';']⟩ := by
    show (match fenceInner (pyStrip ⟨y ++ [';']⟩).data with
      | some g => pyStrip ⟨g⟩
      | none => pyStrip (pyStrip ⟨y ++ [';']⟩)) = _
    rw [hstrip]
    show (match fenceInner (y ++ [';']) with
      | some g => pyStrip ⟨g⟩
      | none => pyStrip (⟨y ++ [';']⟩ : String)) = _
    rw [fenceInner_concat_semi y]
    exact hstrip
  rw [hcx]
  show (⟨rstripIf (· == ';')
      (pyStrip (_strip_fences ⟨y ++ [';']⟩)).data ++ [';']⟩ : String) = _
  rw [hfence, hstrip]
  show (⟨rstripIf (· == ';') (y ++ [';']) ++ [';']⟩ : String) = _
  rw [rstripIf_concat, if_pos (by decide), hfix]

/-! ## C6: `ask_qwen` never raises -/

/-- An entry of the unanswered-question log: `append_unanswered`
(`src/app/services/qlog.py:7-16`) records the question and the failed SQL
or error text (the timestamp is abstracted away). -/
structure LogEntry where
  question : String
  failed_sql : String
deriving DecidableEq

/-- The placeholder set `{"", "none;", "null;"}` of the sanity check. -/
def placeholders : List String := ["", "none;", "null;"]

/-- The secondary bridge `ask_qwen` (`src/app/services/mbridge.py:65-99`).
The HTTP call
`_post` is abstracted by `postResult` — the response content, or the text
of the exception the `try` block caught.  The local `sql = _clean(content)`
is inlined; the result pairs the return value with the
`append_unanswered` entries written during the call
(`failed_sql=sql or ""` is Python's falsy-string idiom). -/
def ask_qwen (postResult : Except String String) (user_question : String) :
    String × List LogEntry :=
  match postResult with
  | .error e => ("", [⟨user_question, "ERROR: " ++ e⟩])
  | .ok content =>
    if (_clean content == "")
        || placeholders.contains (pyLower (pyStrip (_clean content)))
        || !(containsSub (pyLower (_clean content)).data "select".data)
        || !(containsSub (pyLower (_clean content)).data "forex_bars".data)
    then ("", [⟨user_question,
      if _clean content == "" then "" else _clean content⟩])
    else (_clean content, [])

theorem ask_qwen_ok (content q : String) :
    ask_qwen (.ok content) q
      = if (_clean content == "")
            || placeholders.contains (pyLower (pyStrip (_clean content)))
            || !(containsSub (pyLower (_clean content)).data "select".data)
            || !(containsSub (pyLower (_clean content)).data
                  "forex_bars".data)
        then ("", [⟨q, if _clean content == "" then "" else _clean content⟩])
        else (_clean content, []) := rfl

/-- Occurrence of `pat` as a substring of `s`. -/
def substrOf (pat s : String) : Prop :=
  ∃ pre post, s.data = pre ++ pat.data ++ post

instance (pat s : String) : Decidable (substrOf pat s) :=
  decidable_of_iff (containsSub s.data pat.data = true) (containsSub_iff _ _)

/-- The sanity checks of `ask_qwen`, stated abstractly: the cleaned SQL is
empty, is a `none`/`null` placeholder, lacks `select`, or lacks
`forex_bars` (both case-insensitively). -/
def sanityFail (sql : String) : Prop :=
  sql = "" ∨ pyLower (pyStrip sql) ∈ placeholders
    ∨ ¬ substrOf "select" (pyLower sql)
    ∨ ¬ substrOf "forex_bars" (pyLower sql)

instance (sql : String) : Decidable (sanityFail sql) := by
  unfold sanityFail
  infer_instance

/-- The Bool condition computed by `ask_qwen` decides `sanityFail`. -/
theorem bad_sql_iff (sql : String) :
    ((sql == "")
        || placeholders.contains (pyLower (pyStrip sql))
        || !(containsSub (pyLower sql).data "select".data)
        || !(containsSub (pyLower sql).data "forex_bars".data)) = true
      ↔ sanityFail sql := by
  unfold sanityFail substrOf
  simp only [Bool.or_eq_true, beq_iff_eq, Bool.not_eq_true',
    ← containsSub_iff, Bool.not_eq_true]
  have c2 : placeholders.contains (pyLower (pyStrip sql)) = true
      ↔ pyLower (pyStrip sql) ∈ placeholders :=
    ⟨List.mem_of_elem_eq_true, List.elem_eq_true_of_mem⟩
  rw [c2]
  constructor
  · rintro (((h | h) | h) | h)
    · exact Or.inl h
    · exact Or.inr (Or.inl h)
    · exact Or.inr (Or.inr (Or.inl (by simp [h])))
    · exact Or.inr (Or.inr (Or.inr (by simp [h])))
  · rintro (h | h | h | h)
    · exact Or.inl (Or.inl (Or.inl h))
    · exact Or.inl (Or.inl (Or.inr h))
    · exact Or.inl (Or.inr (by simpa using h))
    · exact Or.inr (by simpa using h)

/-- The normalization `_clean` never returns the empty string. -/
theorem clean_ne_empty (x : String) : _clean x ≠ "" := by
  obtain ⟨y, hdata, -, -, -⟩ := clean_shape x
  intro h
  rw [h] at hdata
  simp at hdata

/-- C6: the secondary bridge `ask_qwen` never raises: on an exception it
records the question with the error text in the unanswered-question log
and returns `""`; on a response whose cleaned SQL fails the sanity checks
it records the question with the failed SQL and returns `""`; otherwise
it returns the cleaned SQL without logging. -/
theorem claim_C6 (postResult : Except String String) (q : String) :
    (∀ e, postResult = .error e →
      ask_qwen postResult q = ("", [⟨q, "ERROR: " ++ e⟩])) ∧
    (∀ content, postResult = .ok content →
      (sanityFail (_clean content) →
        ask_qwen postResult q = ("", [⟨q, _clean content⟩])) ∧
      (¬ sanityFail (_clean content) →
        ask_qwen postResult q = (_clean content, []))) := by
  constructor
  · intro e he
    subst he
    rfl
  · intro content hc
    subst hc
    have hne : (_clean content == "") = false := by
      simp [clean_ne_empty content]
    constructor
    · intro hf
      have hb := (bad_sql_iff (_clean content)).mpr hf
      rw [ask_qwen_ok, if_pos hb, hne]
      rfl
    · intro hf
      rw [ask_qwen_ok, if_neg]
      intro hb
      exact hf ((bad_sql_iff (_clean content)).mp hb)

/-- Witness for C6: a good response is returned cleaned, with no log
entry. -/
theorem claim_C6_witness :
    ¬ sanityFail (_clean "SELECT * FROM forex_bars") ∧
      ask_qwen (.ok "SELECT * FROM forex_bars") "q"
        = (_clean "SELECT * FROM forex_bars", []) :=
  ⟨by decide,
    ((claim_C6 (.ok "SELECT * FROM forex_bars") "q").2
      "SELECT * FROM forex_bars" rfl).2 (by decide)⟩
